import Mathlib

/-!
Shallow embedding of the `LocalHashAndJoinWith` instruction
(`instruction/local_hash_and_join_with.go`): a local streaming hash
equi-join operator.  The operator builds an in-memory table from the
left ("build") stream and streams the right ("probe") stream against
it, emitting `ProbeKey ++ ProbeValue ++ BuildValue` for each probe row
whose canonical key is present in the table.

The row codec, the frame-iteration primitive (`util.ProcessMessage`)
and the key-extraction helpers (`genKeyBytesAndValues`,
`util.DecodeRowKeysValues`, `util.EncodeRow`, `util.WriteRow`) are
external collaborators that are not part of the source core; they are
modelled here from the specification of their contracts.
-/

namespace Gleam

/-- A decoded field value.  `num` is an ordinary value the row codec can
encode; `chan` models a value the codec cannot re-encode (the spec's
`EncodingError` kind: "failure re-encoding a key or output row"). -/
inductive Val where
  | num : Nat → Val
  | chan : Nat → Val
  deriving DecidableEq, Repr

/-- A decoded row: an ordered sequence of opaque field values. -/
abbrev Row := List Val

/-- Modelled from the spec: the shared row-encoding routine of the
RowCodec, on a single field value.  Equal values produce byte-identical
encodings; values of the unsupported kind fail to encode. -/
def encodeVal : Val → Option (List Nat)
  | Val.num k => some [k]
  | Val.chan _ => none

/-- Modelled from the spec: encode the fields of a row, each field
length-prefixed, failing if any single field fails to encode. -/
def encodeFields : Row → Option (List Nat)
  | [] => some []
  | v :: r =>
    match encodeVal v, encodeFields r with
    | some b, some rest => some (b.length :: b ++ rest)
    | _, _ => none

/-- Modelled from the spec: `util.EncodeRow` — the single shared
row-encoding routine producing one length-prefixed binary frame per row
(field count, then length-prefixed fields).  Equal rows always produce
byte-identical encodings; this is the canonical key encoding used on
both the build and the probe side. -/
def encodeRow (r : Row) : Option (List Nat) :=
  (encodeFields r).map (fun bs => r.length :: bs)

/-- One frame on a byte stream: either a well-formed encoding of a row,
or a malformed frame (tagged by a number so distinct malformed frames
exist).  Frames carry their decode result, abstracting the byte-level
length-prefixed framing. -/
inductive Frame where
  | good : Row → Frame
  | bad : Nat → Frame
  deriving DecidableEq, Repr

/-- Modelled from the spec: RowCodec `decode(frame) -> Row`; a
malformed frame fails to decode (`DecodeError`). -/
def decodeFrame : Frame → Option Row
  | Frame.good r => some r
  | Frame.bad _ => none

/-- Modelled from the spec (KeyExtractor): the projected Key — the
row's fields at the configured zero-based positions, in position-list
order; out-of-range positions are dropped (best-effort, the source
leaves them unchecked). -/
def extractKeys (row : Row) (indexes : List Nat) : Row :=
  indexes.filterMap (fun i => row[i]?)

/-- Modelled from the spec (KeyExtractor): the Value — the row's fields
at positions not in the key-position list, original order preserved. -/
def extractVals (row : Row) (indexes : List Nat) : Row :=
  (row.enum.filter (fun p => !(indexes.contains p.1))).map Prod.snd

/-- Modelled from the spec: `util.DecodeRowKeysValues` — decode a frame
into a row and split it into (Key, Value) at the configured positions;
fails with a `DecodeError` on a malformed frame. -/
def decodeRowKeysValues (input : Frame) (indexes : List Nat) :
    Except String (Row × Row) :=
  match decodeFrame input with
  | none => Except.error "DecodeError: malformed frame"
  | some row => Except.ok (extractKeys row indexes, extractVals row indexes)

/-- Modelled from the spec: `genKeyBytesAndValues` — decode a frame,
split into Key/Value, and canonicalize the Key with the shared
row-encoding routine; fails on a malformed frame (`DecodeError`) or an
unencodable key (`EncodingError`). -/
def genKeyBytesAndValues (input : Frame) (indexes : List Nat) :
    Except String (List Nat × Row) :=
  match decodeRowKeysValues input indexes with
  | Except.error e => Except.error e
  | Except.ok (keys, vals) =>
    match encodeRow keys with
    | none => Except.error "EncodingError: failed to encode key"
    | some kb => Except.ok (kb, vals)

/-- The in-memory hash table: canonical key bytes to build-side Value;
modelled as an association list written only through `tableInsert`. -/
abbrev Table := List (List Nat × Row)

/-- Insert into the table, overwriting the Value when the key is
already present (Go map assignment `hashmap[string(keys)] = vals`). -/
def tableInsert (t : Table) (k : List Nat) (v : Row) : Table :=
  if t.any (fun p => p.1 == k) then
    t.map (fun p => if p.1 == k then (k, v) else p)
  else
    t ++ [(k, v)]

/-- Look a canonical key up in the table (Go map read
`hashmap[string(keyBytes)]`). -/
def tableLookup (t : Table) (k : List Nat) : Option Row :=
  (t.find? (fun p => p.1 == k)).map Prod.snd

/-- Modelled from the spec: `util.ProcessMessage` — the frame-iteration
contract.  Frames are handed to the per-frame handler in stream order
until end-of-stream; if the handler signals an error, iteration stops
immediately and the error is surfaced.  Returns the final handler
state, the error (if any), and the frames left unconsumed after the
failing frame. -/
def processMessage {σ : Type} (handler : Frame → σ → Except String σ) :
    List Frame → σ → σ × Option String × List Frame
  | [], s => (s, none, [])
  | f :: rest, s =>
    match handler f s with
    | Except.error e => (s, some e, rest)
    | Except.ok s' => processMessage handler rest s'

/-- Modelled from the spec: `util.WriteRow` — encode a row with the
shared row-encoding routine and append the frame to the output stream.
The source discards `WriteRow`'s return value, so an encoding failure
writes nothing and is otherwise ignored. -/
def writeRow (out : List (List Nat)) (row : Row) : List (List Nat) :=
  match encodeRow row with
  | none => out
  | some bs => out ++ [bs]

/-- The build-phase per-frame handler from `DoLocalHashAndJoinWith`:
decode, split, canonicalize the key, insert into the table; on any
error nothing is inserted and the error is returned. -/
def buildHandler (indexes : List Nat) (f : Frame) (t : Table) :
    Except String Table :=
  match genKeyBytesAndValues f indexes with
  | Except.error e => Except.error e
  | Except.ok (kb, vals) => Except.ok (tableInsert t kb vals)

/-- The probe-phase per-frame handler from `DoLocalHashAndJoinWith`:
decode and split the probe row, re-encode its key, look it up; on a hit
write `keys ++ vals ++ mappedValues` to the output (write failures
ignored), on a miss do nothing. -/
def probeHandler (indexes : List Nat) (t : Table) (f : Frame)
    (out : List (List Nat)) : Except String (List (List Nat)) :=
  match decodeRowKeysValues f indexes with
  | Except.error e => Except.error e
  | Except.ok (keys, vals) =>
    match encodeRow keys with
    | none => Except.error "EncodingError: failed to encode row"
    | some keyBytes =>
      match tableLookup t keyBytes with
      | some mappedValues => Except.ok (writeRow out (keys ++ vals ++ mappedValues))
      | none => Except.ok out

/-- The observable result of one run of `DoLocalHashAndJoinWith`:
the output stream (one encoded frame per emitted row), the final table,
the per-phase errors, the frames of each input left unconsumed, and the
diagnostic lines printed to standard output. -/
structure JoinRun where
  output : List (List Nat)
  table : Table
  buildError : Option String
  probeError : Option String
  buildRemaining : List Frame
  probeRemaining : List Frame
  diagnostics : List String
  deriving DecidableEq, Repr

/-- `DoLocalHashAndJoinWith(leftReader, rightReader, writer, indexes)`:
build the table from the left stream (stopping on the first error,
which is printed); if the table is empty, drain the right stream as raw
bytes and return; otherwise probe the right stream against the table
(stopping on the first error, which is printed). -/
def doLocalHashAndJoinWith (leftFrames rightFrames : List Frame)
    (indexes : List Nat) : JoinRun :=
  let b := processMessage (buildHandler indexes) leftFrames []
  let hashmap := b.1
  let buildDiag : List String :=
    match b.2.1 with
    | some e => ["Sort>Failed to read input data:" ++ e]
    | none => []
  if hashmap.isEmpty then
    { output := [], table := hashmap, buildError := b.2.1, probeError := none,
      buildRemaining := b.2.2, probeRemaining := [], diagnostics := buildDiag }
  else
    let p := processMessage (probeHandler indexes hashmap) rightFrames []
    let probeDiag : List String :=
      match p.2.1 with
      | some e => ["LocalHashAndJoinWith>Failed to process the bigger input data:" ++ e]
      | none => []
    { output := p.1, table := hashmap, buildError := b.2.1, probeError := p.2.1,
      buildRemaining := b.2.2, probeRemaining := p.2.2,
      diagnostics := buildDiag ++ probeDiag }

/-- The statistics sink handed to the operator's run entry point
(`*Stats` in the source); per-phase error counters. -/
structure Stats where
  buildErrors : Nat
  probeErrors : Nat
  deriving DecidableEq, Repr

/-- The operator value: the configured key column positions. -/
structure LocalHashAndJoinWith where
  indexes : List Nat
  deriving DecidableEq, Repr

/-- `Name()`: the operator's stable name string. -/
def LocalHashAndJoinWith.name (_ : LocalHashAndJoinWith) : String :=
  "LocalHashAndJoinWith"

/-- `Function()`: the run entry point.  The returned closure calls
`DoLocalHashAndJoinWith(readers[0], readers[1], writers[0], b.indexes)`
and does not pass the statistics sink on, so the sink is returned
unchanged. -/
def LocalHashAndJoinWith.function (b : LocalHashAndJoinWith)
    (leftFrames rightFrames : List Frame) (stats : Stats) :
    JoinRun × Stats :=
  (doLocalHashAndJoinWith leftFrames rightFrames b.indexes, stats)

/-- Whether a probe row hits the table: its key encodes and the
canonical key bytes are present. -/
def probeHit (t : Table) (idx : List Nat) (r : Row) : Bool :=
  ((encodeRow (extractKeys r idx)).bind (tableLookup t)).isSome

/-- The composite row emitted for a hit:
`ProbeKey ++ ProbeValue ++ BuildValue`. -/
def joinedRow (t : Table) (idx : List Nat) (r : Row) : Row :=
  extractKeys r idx ++ extractVals r idx ++
    ((encodeRow (extractKeys r idx)).bind (tableLookup t)).getD []

/-- What one decoded probe row contributes to the output stream:
nothing on a miss or when the output row fails to encode, the encoded
composite row on a hit. -/
def probeEmit (t : Table) (idx : List Nat) (r : Row) : Option (List Nat) :=
  match encodeRow (extractKeys r idx) with
  | none => none
  | some kb =>
    match tableLookup t kb with
    | none => none
    | some mv => encodeRow (extractKeys r idx ++ extractVals r idx ++ mv)

/-- The table update performed for one decoded build row. -/
def buildInsert (idx : List Nat) (t : Table) (r : Row) : Table :=
  match encodeRow (extractKeys r idx) with
  | some kb => tableInsert t kb (extractVals r idx)
  | none => t

/-- The table accumulated from a list of decoded build rows. -/
def buildTableList (idx : List Nat) (rows : List Row) (t : Table) : Table :=
  rows.foldl (buildInsert idx) t

/-- The table produced by the build phase of the operator on a build
stream. -/
def buildTableOf (L : List Frame) (idx : List Nat) : Table :=
  (processMessage (buildHandler idx) L []).1

/-- The operator's phase, following the spec's state machine
`Idle/Building -> Probing -> Done`. -/
inductive Phase where
  | building : Phase
  | probing : Phase
  | done : Phase
  deriving DecidableEq, Repr

/-- Small-step state of one operator invocation: the current phase, the
unconsumed part of each input stream, the table and the output emitted
so far.  One `step` performs at most one frame read, making the order
of stream accesses observable. -/
structure MState where
  phase : Phase
  indexes : List Nat
  buildRem : List Frame
  probeRem : List Frame
  table : Table
  output : List (List Nat)
  deriving DecidableEq, Repr

/-- The state at operator entry: Building, nothing consumed, empty
table, empty output. -/
def initState (idx : List Nat) (L R : List Frame) : MState :=
  { phase := Phase.building, indexes := idx, buildRem := L, probeRem := R,
    table := [], output := [] }

/-- One small step of the operator.  Building: consume one build frame
(transitioning to Probing on end-of-stream or on a handler error);
Probing: with an empty table drop the whole probe stream unread
(the raw `io.Copy` drain), otherwise consume one probe frame
(transitioning to Done on end-of-stream or error); Done is terminal. -/
def step (s : MState) : MState :=
  match s.phase with
  | Phase.building =>
    match s.buildRem with
    | [] => { s with phase := Phase.probing }
    | f :: rest =>
      match buildHandler s.indexes f s.table with
      | Except.error _ => { s with phase := Phase.probing, buildRem := rest }
      | Except.ok t' => { s with table := t', buildRem := rest }
  | Phase.probing =>
    if s.table.isEmpty then
      { s with phase := Phase.done, probeRem := [] }
    else
      match s.probeRem with
      | [] => { s with phase := Phase.done }
      | f :: rest =>
        match probeHandler s.indexes s.table f s.output with
        | Except.error _ => { s with phase := Phase.done, probeRem := rest }
        | Except.ok out' => { s with output := out', probeRem := rest }
  | Phase.done => s

/-- Invariant of the small-step machine relating a reachable state to
the run on streams `L`, `R`: while Building, the probe stream is
untouched, nothing has been emitted, and finishing the build from here
yields exactly the run's build result; once the phase has left
Building, the table is the run's fully built table and the build
stream is exactly as far consumed as the run's build phase left it. -/
def machineInv (idx : List Nat) (L R : List Frame) (s : MState) : Prop :=
  s.indexes = idx
    ∧ (s.phase = Phase.building →
        s.probeRem = R ∧ s.output = []
          ∧ processMessage (buildHandler idx) s.buildRem s.table
              = processMessage (buildHandler idx) L [])
    ∧ (s.phase ≠ Phase.building →
        s.table = buildTableOf L idx
          ∧ s.buildRem = (processMessage (buildHandler idx) L []).2.2)

theorem probeEmit_eq (t : Table) (idx : List Nat) (r : Row) :
    probeEmit t idx r =
      if probeHit t idx r then encodeRow (joinedRow t idx r) else none := by
  unfold probeEmit probeHit joinedRow
  cases h1 : encodeRow (extractKeys r idx) with
  | none => simp [h1]
  | some kb =>
    cases h2 : tableLookup t kb with
    | none => simp [h1, h2]
    | some mv => simp [h1, h2]

theorem processMessage_nil {σ : Type} (h : Frame → σ → Except String σ)
    (s : σ) : processMessage h [] s = (s, none, []) := rfl

theorem processMessage_cons_ok {σ : Type} (h : Frame → σ → Except String σ)
    (f : Frame) (rest : List Frame) (s s' : σ) (hf : h f s = Except.ok s') :
    processMessage h (f :: rest) s = processMessage h rest s' := by
  simp only [processMessage, hf]

theorem processMessage_cons_error {σ : Type} (h : Frame → σ → Except String σ)
    (f : Frame) (rest : List Frame) (s : σ) (e : String)
    (hf : h f s = Except.error e) :
    processMessage h (f :: rest) s = (s, some e, rest) := by
  unfold processMessage
  rw [hf]

theorem processMessage_append_of_ok {σ : Type}
    (h : Frame → σ → Except String σ) :
    ∀ (X : List Frame) (Y : List Frame) (s s' : σ),
      processMessage h X s = (s', none, []) →
      processMessage h (X ++ Y) s = processMessage h Y s' := by
  intro X
  induction X with
  | nil =>
    intro Y s s' hx
    have : s = s' := congrArg Prod.fst hx
    subst this
    rfl
  | cons f rest ih =>
    intro Y s s' hx
    cases hf : h f s with
    | error e =>
      rw [processMessage_cons_error h f rest s e hf] at hx
      exact absurd (congrArg (fun q => q.2.1) hx) (by simp)
    | ok s1 =>
      rw [processMessage_cons_ok h f rest s s1 hf] at hx
      rw [List.cons_append, processMessage_cons_ok h f (rest ++ Y) s s1 hf]
      exact ih Y s1 s' hx

theorem processMessage_skip {σ : Type} (h : Frame → σ → Except String σ)
    (f : Frame) (hf : ∀ s, h f s = Except.ok s) :
    ∀ (X Y : List Frame) (s : σ),
      (processMessage h (X ++ f :: Y) s).1 = (processMessage h (X ++ Y) s).1 ∧
      (processMessage h (X ++ f :: Y) s).2.1 = (processMessage h (X ++ Y) s).2.1 := by
  intro X
  induction X with
  | nil =>
    intro Y s
    rw [List.nil_append, List.nil_append,
      processMessage_cons_ok h f Y s s (hf s)]
    exact ⟨rfl, rfl⟩
  | cons x rest ih =>
    intro Y s
    rw [List.cons_append, List.cons_append]
    cases hx : h x s with
    | error e =>
      rw [processMessage_cons_error h x (rest ++ f :: Y) s e hx,
        processMessage_cons_error h x (rest ++ Y) s e hx]
      exact ⟨rfl, rfl⟩
    | ok s1 =>
      rw [processMessage_cons_ok h x (rest ++ f :: Y) s s1 hx,
        processMessage_cons_ok h x (rest ++ Y) s s1 hx]
      exact ih Y s1

theorem buildHandler_good (idx : List Nat) (t : Table) (r : Row)
    (hk : (encodeRow (extractKeys r idx)).isSome) :
    buildHandler idx (Frame.good r) t = Except.ok (buildInsert idx t r) := by
  obtain ⟨kb, hkb⟩ := Option.isSome_iff_exists.mp hk
  unfold buildHandler genKeyBytesAndValues decodeRowKeysValues decodeFrame buildInsert
  simp [hkb]

theorem buildHandler_bad (idx : List Nat) (m : Nat) (t : Table) :
    buildHandler idx (Frame.bad m) t
      = Except.error "DecodeError: malformed frame" := rfl

theorem probeHandler_good (idx : List Nat) (t : Table) (r : Row)
    (out : List (List Nat)) (hk : (encodeRow (extractKeys r idx)).isSome) :
    probeHandler idx t (Frame.good r) out
      = Except.ok (out ++ (probeEmit t idx r).toList) := by
  obtain ⟨kb, hkb⟩ := Option.isSome_iff_exists.mp hk
  unfold probeHandler decodeRowKeysValues decodeFrame probeEmit writeRow
  simp only [hkb]
  cases hl : tableLookup t kb with
  | none => simp [hl]
  | some mv =>
    cases he : encodeRow (extractKeys r idx ++ extractVals r idx ++ mv) with
    | none => simp [hl, he, -List.append_assoc]
    | some bs => simp [hl, he, -List.append_assoc]

theorem processMessage_build (idx : List Nat) :
    ∀ (rows : List Row) (t : Table),
      (∀ r ∈ rows, (encodeRow (extractKeys r idx)).isSome) →
      processMessage (buildHandler idx) (rows.map Frame.good) t
        = (buildTableList idx rows t, none, []) := by
  intro rows
  induction rows with
  | nil => intro t _; rfl
  | cons r rest ih =>
    intro t hk
    rw [List.map_cons,
      processMessage_cons_ok _ _ _ t (buildInsert idx t r)
        (buildHandler_good idx t r (hk r (by simp)))]
    exact ih (buildInsert idx t r) (fun x hx => hk x (by simp [hx]))

theorem processMessage_probe (idx : List Nat) (t : Table) :
    ∀ (rows : List Row) (out : List (List Nat)),
      (∀ r ∈ rows, (encodeRow (extractKeys r idx)).isSome) →
      processMessage (probeHandler idx t) (rows.map Frame.good) out
        = (out ++ rows.filterMap (probeEmit t idx), none, []) := by
  intro rows
  induction rows with
  | nil => intro out _; simp [processMessage]
  | cons r rest ih =>
    intro out hk
    rw [List.map_cons,
      processMessage_cons_ok _ _ _ out (out ++ (probeEmit t idx r).toList)
        (probeHandler_good idx t r out (hk r (by simp))),
      ih (out ++ (probeEmit t idx r).toList) (fun x hx => hk x (by simp [hx]))]
    cases he : probeEmit t idx r with
    | none => simp [List.filterMap_cons, he]
    | some b => simp [List.filterMap_cons, he]

theorem tableLookup_cons_pos (p : List Nat × Row) (ts : Table)
    (k : List Nat) (h : (p.1 == k) = true) :
    tableLookup (p :: ts) k = some p.2 := by
  unfold tableLookup
  rw [List.find?_cons_of_pos ts h]
  rfl

theorem tableLookup_cons_neg (p : List Nat × Row) (ts : Table)
    (k : List Nat) (h : (p.1 == k) = false) :
    tableLookup (p :: ts) k = tableLookup ts k := by
  unfold tableLookup
  rw [List.find?_cons_of_neg ts (by rw [h]; exact Bool.false_ne_true)]

theorem lookup_overwrite_of_any (k : List Nat) (v : Row) :
    ∀ t : Table, t.any (fun p => p.1 == k) = true →
      tableLookup (t.map (fun p => if p.1 == k then (k, v) else p)) k
        = some v := by
  intro t
  induction t with
  | nil => intro ha; simp at ha
  | cons p ts ih =>
    intro ha
    rw [List.map_cons]
    by_cases hp : (p.1 == k) = true
    · rw [if_pos hp, tableLookup_cons_pos (k, v) _ k (beq_of_eq rfl)]
    · have hp' : (p.1 == k) = false := Bool.eq_false_iff.mpr hp
      rw [if_neg hp, tableLookup_cons_neg p _ k hp']
      have hts : ts.any (fun q => q.1 == k) = true := by
        rw [List.any_cons, hp'] at ha
        simpa using ha
      exact ih hts

theorem lookup_overwrite_ne (k : List Nat) (v : Row) (k' : List Nat)
    (h : k' ≠ k) :
    ∀ t : Table,
      tableLookup (t.map (fun p => if p.1 == k then (k, v) else p)) k'
        = tableLookup t k' := by
  intro t
  induction t with
  | nil => rfl
  | cons p ts ih =>
    rw [List.map_cons]
    by_cases hp : (p.1 == k) = true
    · have hkk : (k == k') = false :=
        beq_eq_false_iff_ne.mpr (fun hc => h hc.symm)
      have hpk : (p.1 == k') = false := by
        rw [eq_of_beq hp]; exact hkk
      rw [if_pos hp, tableLookup_cons_neg (k, v) _ k' hkk,
        tableLookup_cons_neg p ts k' hpk]
      exact ih
    · rw [if_neg hp]
      by_cases hq : (p.1 == k') = true
      · rw [tableLookup_cons_pos p _ k' hq, tableLookup_cons_pos p ts k' hq]
      · have hq' : (p.1 == k') = false := Bool.eq_false_iff.mpr hq
        rw [tableLookup_cons_neg p _ k' hq', tableLookup_cons_neg p ts k' hq']
        exact ih

theorem find?_none_of_any_false (k : List Nat) (t : Table)
    (ha : t.any (fun p => p.1 == k) = false) :
    t.find? (fun p => p.1 == k) = none := by
  apply List.find?_eq_none.mpr
  intro x hx
  exact List.any_eq_false.mp ha x hx

theorem tableLookup_insert_self (t : Table) (k : List Nat) (v : Row) :
    tableLookup (tableInsert t k v) k = some v := by
  unfold tableInsert
  by_cases ha : t.any (fun p => p.1 == k) = true
  · simp only [ha, if_true]
    exact lookup_overwrite_of_any k v t ha
  · have ha' : t.any (fun p => p.1 == k) = false := Bool.eq_false_iff.mpr ha
    simp only [ha', Bool.false_eq_true, if_false]
    unfold tableLookup
    rw [List.find?_append, find?_none_of_any_false k t ha']
    rw [Option.none_or,
      @List.find?_cons_of_pos _ (fun p => p.1 == k) (k, v) [] (beq_of_eq rfl)]
    rfl

theorem tableLookup_insert_ne (t : Table) (k : List Nat) (v : Row)
    (k' : List Nat) (h : k' ≠ k) :
    tableLookup (tableInsert t k v) k' = tableLookup t k' := by
  unfold tableInsert
  by_cases ha : t.any (fun p => p.1 == k) = true
  · simp only [ha, if_true]
    exact lookup_overwrite_ne k v k' h t
  · have ha' : t.any (fun p => p.1 == k) = false := Bool.eq_false_iff.mpr ha
    simp only [ha', Bool.false_eq_true, if_false]
    unfold tableLookup
    rw [List.find?_append]
    have hkk : (k == k') = false :=
      beq_eq_false_iff_ne.mpr (fun hc => h hc.symm)
    rw [@List.find?_cons_of_neg _ (fun p => p.1 == k') (k, v) []
        (by show ¬(k == k') = true; rw [hkk]; exact Bool.false_ne_true),
      List.find?_nil, Option.or_none]

theorem tableInsert_keys_nodup (t : Table) (k : List Nat) (v : Row)
    (h : (t.map Prod.fst).Nodup) :
    ((tableInsert t k v).map Prod.fst).Nodup := by
  unfold tableInsert
  by_cases ha : t.any (fun p => p.1 == k) = true
  · simp only [ha, if_true]
    have hfun : (Prod.fst ∘ fun p : List Nat × Row =>
        if p.1 == k then (k, v) else p) = Prod.fst := by
      funext p
      by_cases hp : (p.1 == k) = true
      · simp only [Function.comp, if_pos hp]
        exact (eq_of_beq hp).symm
      · simp only [Function.comp, if_neg hp]
    rw [List.map_map, hfun]
    exact h
  · have ha' : t.any (fun p => p.1 == k) = false := Bool.eq_false_iff.mpr ha
    simp only [ha', Bool.false_eq_true, if_false]
    rw [List.map_append, List.nodup_append]
    refine ⟨h, by simp, ?_⟩
    intro a hat hak
    have hak' : a = k := by simpa using hak
    rcases List.mem_map.mp hat with ⟨p, hpt, hpa⟩
    have hne := List.any_eq_false.mp ha' p hpt
    exact hne (beq_of_eq (hpa.trans hak'))

theorem buildTableList_lookup (idx : List Nat) :
    ∀ (rows : List Row) (t : Table) (kb : List Nat),
      (∀ r ∈ rows, (encodeRow (extractKeys r idx)).isSome) →
      tableLookup (buildTableList idx rows t) kb
        = ((rows.reverse.find?
              (fun r => encodeRow (extractKeys r idx) == some kb)).map
            (fun r => extractVals r idx)).or (tableLookup t kb) := by
  intro rows
  induction rows with
  | nil => intro t kb _; simp [buildTableList]
  | cons r rest ih =>
    intro t kb hk
    have hstep : buildTableList idx (r :: rest) t
        = buildTableList idx rest (buildInsert idx t r) := by
      simp [buildTableList]
    rw [hstep, ih (buildInsert idx t r) kb (fun x hx => hk x (by simp [hx]))]
    obtain ⟨kb', hkb'⟩ := Option.isSome_iff_exists.mp (hk r (by simp))
    rw [List.reverse_cons, List.find?_append]
    cases hfind : rest.reverse.find?
        (fun r => encodeRow (extractKeys r idx) == some kb) with
    | some x => simp [hfind]
    | none =>
      simp only [hfind, Option.none_or, Option.map_none', Option.none_or]
      have hbi : buildInsert idx t r
          = tableInsert t kb' (extractVals r idx) := by
        simp [buildInsert, hkb']
      by_cases heq : kb' = kb
      · subst heq
        have hpr : (encodeRow (extractKeys r idx) == some kb') = true := by
          simp [hkb']
        simp only [List.find?_cons, hpr, cond_true]
        rw [hbi, tableLookup_insert_self]
        simp
      · have hpr : (encodeRow (extractKeys r idx) == some kb) = false := by
          simp [hkb']
          exact heq
        simp only [List.find?_cons, hpr, cond_false, List.find?_nil]
        rw [hbi, tableLookup_insert_ne t kb' (extractVals r idx) kb
          (fun hc => heq hc.symm)]
        simp

theorem doLocal_table (L R : List Frame) (idx : List Nat) :
    (doLocalHashAndJoinWith L R idx).table = buildTableOf L idx := by
  unfold doLocalHashAndJoinWith buildTableOf
  cases hi : (processMessage (buildHandler idx) L ([] : Table)).1.isEmpty <;>
    simp only [hi, Bool.false_eq_true, if_false, if_true]

theorem doLocal_buildError (L R : List Frame) (idx : List Nat) :
    (doLocalHashAndJoinWith L R idx).buildError
      = (processMessage (buildHandler idx) L []).2.1 := by
  unfold doLocalHashAndJoinWith
  cases hi : (processMessage (buildHandler idx) L ([] : Table)).1.isEmpty <;>
    simp only [hi, Bool.false_eq_true, if_false, if_true]

theorem doLocal_buildRemaining (L R : List Frame) (idx : List Nat) :
    (doLocalHashAndJoinWith L R idx).buildRemaining
      = (processMessage (buildHandler idx) L []).2.2 := by
  unfold doLocalHashAndJoinWith
  cases hi : (processMessage (buildHandler idx) L ([] : Table)).1.isEmpty <;>
    simp only [hi, Bool.false_eq_true, if_false, if_true]

theorem doLocal_empty_fields (L R : List Frame) (idx : List Nat)
    (h : buildTableOf L idx = []) :
    (doLocalHashAndJoinWith L R idx).output = []
      ∧ (doLocalHashAndJoinWith L R idx).probeError = none
      ∧ (doLocalHashAndJoinWith L R idx).probeRemaining = [] := by
  unfold doLocalHashAndJoinWith
  unfold buildTableOf at h
  have hi : (processMessage (buildHandler idx) L ([] : Table)).1.isEmpty = true :=
    List.isEmpty_iff.mpr h
  simp only [hi, if_true]
  exact ⟨trivial, trivial, trivial⟩

theorem doLocal_indep_probe_of_empty (L R R' : List Frame) (idx : List Nat)
    (h : buildTableOf L idx = []) :
    doLocalHashAndJoinWith L R idx = doLocalHashAndJoinWith L R' idx := by
  unfold doLocalHashAndJoinWith
  unfold buildTableOf at h
  have hi : (processMessage (buildHandler idx) L ([] : Table)).1.isEmpty = true :=
    List.isEmpty_iff.mpr h
  simp only [hi, if_true]

theorem doLocal_nonempty_fields (L R : List Frame) (idx : List Nat)
    (h : buildTableOf L idx ≠ []) :
    (doLocalHashAndJoinWith L R idx).output
        = (processMessage (probeHandler idx (buildTableOf L idx)) R []).1
      ∧ (doLocalHashAndJoinWith L R idx).probeError
        = (processMessage (probeHandler idx (buildTableOf L idx)) R []).2.1
      ∧ (doLocalHashAndJoinWith L R idx).probeRemaining
        = (processMessage (probeHandler idx (buildTableOf L idx)) R []).2.2 := by
  unfold doLocalHashAndJoinWith
  unfold buildTableOf at h ⊢
  have hi : (processMessage (buildHandler idx) L ([] : Table)).1.isEmpty = false := by
    rw [Bool.eq_false_iff]
    intro hc
    exact h (List.isEmpty_iff.mp hc)
  simp only [hi, Bool.false_eq_true, if_false]
  exact ⟨trivial, trivial, trivial⟩

theorem probeHit_nil (idx : List Nat) (r : Row) :
    probeHit [] idx r = false := by
  unfold probeHit
  cases he : encodeRow (extractKeys r idx) with
  | none => rfl
  | some kb => simp [he, tableLookup]

theorem filterMap_if_eq_filter_map {α β : Type} (q : α → Bool)
    (f : α → Option β) (d : β) :
    ∀ l : List α, (∀ x ∈ l, q x = true → (f x).isSome) →
      l.filterMap (fun x => if q x then f x else none)
        = (l.filter q).map (fun x => (f x).getD d) := by
  intro l
  induction l with
  | nil => intro _; rfl
  | cons a l ih =>
    intro h
    cases hq : q a with
    | false =>
      rw [List.filterMap_cons, List.filter_cons]
      simp only [hq, Bool.false_eq_true, if_false]
      exact ih (fun x hx => h x (by simp [hx]))
    | true =>
      obtain ⟨b, hb⟩ := Option.isSome_iff_exists.mp (h a (by simp) hq)
      rw [List.filterMap_cons, List.filter_cons]
      simp only [hq, if_true, hb, List.map_cons, Option.getD_some]
      rw [ih (fun x hx => h x (by simp [hx]))]

theorem buildInsert_keys_nodup (idx : List Nat) (t : Table) (r : Row)
    (h : (t.map Prod.fst).Nodup) :
    ((buildInsert idx t r).map Prod.fst).Nodup := by
  unfold buildInsert
  cases he : encodeRow (extractKeys r idx) with
  | none => exact h
  | some kb => exact tableInsert_keys_nodup t kb (extractVals r idx) h

theorem buildTableList_keys_nodup (idx : List Nat) :
    ∀ (rows : List Row) (t : Table), (t.map Prod.fst).Nodup →
      ((buildTableList idx rows t).map Prod.fst).Nodup := by
  intro rows
  induction rows with
  | nil => intro t h; exact h
  | cons r rest ih =>
    intro t h
    have hstep : buildTableList idx (r :: rest) t
        = buildTableList idx rest (buildInsert idx t r) := by
      simp [buildTableList]
    rw [hstep]
    exact ih (buildInsert idx t r) (buildInsert_keys_nodup idx t r h)

/-- C5: if the table has zero entries when the build phase ends (in
particular for an empty build stream), the probe phase still fully
consumes the entire probe stream (nothing left unconsumed) and produces
zero output rows. -/
theorem C5_empty_build_drains (L R : List Frame) (idx : List Nat)
    (h : (doLocalHashAndJoinWith L R idx).table = []) :
    (doLocalHashAndJoinWith L R idx).output = []
      ∧ (doLocalHashAndJoinWith L R idx).probeRemaining = [] := by
  have ht : buildTableOf L idx = [] := by rw [← doLocal_table L R idx]; exact h
  have hf := doLocal_empty_fields L R idx ht
  exact ⟨hf.1, hf.2.2⟩

theorem C5_empty_build_drains_witness :
    (doLocalHashAndJoinWith [] [Frame.bad 0, Frame.good [Val.num 7]] [0]).table = []
      ∧ ((doLocalHashAndJoinWith [] [Frame.bad 0, Frame.good [Val.num 7]] [0]).output = []
        ∧ (doLocalHashAndJoinWith [] [Frame.bad 0, Frame.good [Val.num 7]] [0]).probeRemaining = []) :=
  ⟨rfl, C5_empty_build_drains [] [Frame.bad 0, Frame.good [Val.num 7]] [0] rfl⟩

/-- C10: when the table is empty after the build phase, the probe
stream is drained without decoding: for every probe stream, including a
malformed one, the drain reports no decode error, consumes the whole
stream, and the entire run result does not depend on the probe stream's
contents at all. -/
theorem C10_empty_table_raw_drain (L R R' : List Frame) (idx : List Nat)
    (h : (doLocalHashAndJoinWith L R idx).table = []) :
    (doLocalHashAndJoinWith L R idx).probeError = none
      ∧ (doLocalHashAndJoinWith L R idx).probeRemaining = []
      ∧ doLocalHashAndJoinWith L R idx = doLocalHashAndJoinWith L R' idx := by
  have ht : buildTableOf L idx = [] := by rw [← doLocal_table L R idx]; exact h
  have hf := doLocal_empty_fields L R idx ht
  exact ⟨hf.2.1, hf.2.2, doLocal_indep_probe_of_empty L R R' idx ht⟩

theorem C10_empty_table_raw_drain_witness :
    (doLocalHashAndJoinWith [] [Frame.bad 3] [0]).table = []
      ∧ ((doLocalHashAndJoinWith [] [Frame.bad 3] [0]).probeError = none
        ∧ (doLocalHashAndJoinWith [] [Frame.bad 3] [0]).probeRemaining = []
        ∧ doLocalHashAndJoinWith [] [Frame.bad 3] [0]
            = doLocalHashAndJoinWith [] [Frame.good [Val.num 1]] [0]) :=
  ⟨rfl, C10_empty_table_raw_drain [] [Frame.bad 3] [Frame.good [Val.num 1]] [0] rfl⟩

/-- C9: the join is deterministic — running the operator with the same
key positions on byte-identical build and probe streams produces
byte-identical output streams.  (The model is a pure function; in the
source the only map operations used are pointwise reads and `len`, so
Go's randomized map iteration order cannot influence the output.) -/
theorem C9_deterministic (idx : List Nat) (L1 R1 L2 R2 : List Frame)
    (hL : L1 = L2) (hR : R1 = R2) :
    (doLocalHashAndJoinWith L1 R1 idx).output
      = (doLocalHashAndJoinWith L2 R2 idx).output := by
  rw [hL, hR]

theorem C9_deterministic_witness :
    [Frame.good [Val.num 1, Val.num 2]] = [Frame.good [Val.num 1, Val.num 2]]
      ∧ [Frame.good [Val.num 1, Val.num 3]] = [Frame.good [Val.num 1, Val.num 3]]
      ∧ (doLocalHashAndJoinWith [Frame.good [Val.num 1, Val.num 2]]
            [Frame.good [Val.num 1, Val.num 3]] [0]).output
          = (doLocalHashAndJoinWith [Frame.good [Val.num 1, Val.num 2]]
              [Frame.good [Val.num 1, Val.num 3]] [0]).output :=
  ⟨rfl, rfl,
    C9_deterministic [0] [Frame.good [Val.num 1, Val.num 2]]
      [Frame.good [Val.num 1, Val.num 3]] [Frame.good [Val.num 1, Val.num 2]]
      [Frame.good [Val.num 1, Val.num 3]] rfl rfl⟩

/-- C2: when build rows share a canonical key, the later row's Value
wins: after the build phase the table maps every canonical key to the
Value of the last build row with that key (and to nothing if no build
row has that key), and the table's key list has no duplicates, so at
most one Value is stored per key. -/
theorem C2_last_write_wins (idx : List Nat) (rows : List Row)
    (R : List Frame)
    (hk : ∀ r ∈ rows, (encodeRow (extractKeys r idx)).isSome) :
    (∀ kb : List Nat,
        tableLookup ((doLocalHashAndJoinWith (rows.map Frame.good) R idx).table) kb
          = (rows.reverse.find?
                (fun r => encodeRow (extractKeys r idx) == some kb)).map
              (fun r => extractVals r idx))
      ∧ (((doLocalHashAndJoinWith (rows.map Frame.good) R idx).table).map
          Prod.fst).Nodup := by
  have htab : (doLocalHashAndJoinWith (rows.map Frame.good) R idx).table
      = buildTableList idx rows [] := by
    rw [doLocal_table]
    unfold buildTableOf
    rw [processMessage_build idx rows [] hk]
  constructor
  · intro kb
    rw [htab, buildTableList_lookup idx rows [] kb hk]
    have : tableLookup ([] : Table) kb = none := rfl
    rw [this, Option.or_none]
  · rw [htab]
    exact buildTableList_keys_nodup idx rows [] (by simp)

theorem C2_last_write_wins_witness :
    (∀ r ∈ [[Val.num 1, Val.num 10], [Val.num 1, Val.num 20]],
        (encodeRow (extractKeys r [0])).isSome)
      ∧ ((∀ kb : List Nat,
            tableLookup ((doLocalHashAndJoinWith
                ([[Val.num 1, Val.num 10], [Val.num 1, Val.num 20]].map Frame.good)
                [Frame.good [Val.num 1, Val.num 9]] [0]).table) kb
              = ([[Val.num 1, Val.num 10], [Val.num 1, Val.num 20]].reverse.find?
                    (fun r => encodeRow (extractKeys r [0]) == some kb)).map
                  (fun r => extractVals r [0]))
          ∧ (((doLocalHashAndJoinWith
              ([[Val.num 1, Val.num 10], [Val.num 1, Val.num 20]].map Frame.good)
              [Frame.good [Val.num 1, Val.num 9]] [0]).table).map Prod.fst).Nodup) :=
  ⟨by decide,
    C2_last_write_wins [0] [[Val.num 1, Val.num 10], [Val.num 1, Val.num 20]]
      [Frame.good [Val.num 1, Val.num 9]] (by decide)⟩

/-- C1: on a probe stream of well-formed rows whose keys and matched
output rows encode, the output stream is exactly one encoded row
`ProbeKey ++ ProbeValue ++ BuildValue` (`joinedRow`) per probe row
whose canonical key is present in the table, in probe arrival order
(the filter preserves stream order), and nothing else. -/
theorem C1_hit_emits_in_order (idx : List Nat) (L : List Frame)
    (rows : List Row)
    (hk : ∀ r ∈ rows, (encodeRow (extractKeys r idx)).isSome)
    (hout : ∀ r ∈ rows,
      probeHit ((doLocalHashAndJoinWith L (rows.map Frame.good) idx).table) idx r = true →
      (encodeRow (joinedRow ((doLocalHashAndJoinWith L (rows.map Frame.good) idx).table) idx r)).isSome) :
    (doLocalHashAndJoinWith L (rows.map Frame.good) idx).output
      = (rows.filter (fun r =>
            probeHit ((doLocalHashAndJoinWith L (rows.map Frame.good) idx).table) idx r)).map
          (fun r => (encodeRow (joinedRow
            ((doLocalHashAndJoinWith L (rows.map Frame.good) idx).table) idx r)).getD []) := by
  rw [doLocal_table] at hout ⊢
  by_cases he : buildTableOf L idx = []
  · rw [(doLocal_empty_fields L (rows.map Frame.good) idx he).1, he]
    have hfil : rows.filter (fun r => probeHit ([] : Table) idx r) = [] := by
      rw [List.filter_eq_nil_iff]
      intro a _
      rw [probeHit_nil idx a]
      exact Bool.false_ne_true
    rw [hfil]
    rfl
  · rw [(doLocal_nonempty_fields L (rows.map Frame.good) idx he).1,
      processMessage_probe idx (buildTableOf L idx) rows [] hk]
    show [] ++ rows.filterMap (probeEmit (buildTableOf L idx) idx) = _
    rw [List.nil_append]
    have hfun : probeEmit (buildTableOf L idx) idx
        = fun r => if probeHit (buildTableOf L idx) idx r
            then encodeRow (joinedRow (buildTableOf L idx) idx r) else none := by
      funext r
      exact probeEmit_eq (buildTableOf L idx) idx r
    rw [hfun]
    exact filterMap_if_eq_filter_map _ _ [] rows hout

theorem C1_hit_emits_in_order_witness :
    (∀ r ∈ [[Val.num 1, Val.num 100], [Val.num 3, Val.num 300]],
        (encodeRow (extractKeys r [0])).isSome)
      ∧ (∀ r ∈ [[Val.num 1, Val.num 100], [Val.num 3, Val.num 300]],
          probeHit ((doLocalHashAndJoinWith
              [Frame.good [Val.num 1, Val.num 10], Frame.good [Val.num 2, Val.num 20]]
              ([[Val.num 1, Val.num 100], [Val.num 3, Val.num 300]].map Frame.good) [0]).table) [0] r = true →
          (encodeRow (joinedRow ((doLocalHashAndJoinWith
              [Frame.good [Val.num 1, Val.num 10], Frame.good [Val.num 2, Val.num 20]]
              ([[Val.num 1, Val.num 100], [Val.num 3, Val.num 300]].map Frame.good) [0]).table) [0] r)).isSome)
      ∧ (doLocalHashAndJoinWith
            [Frame.good [Val.num 1, Val.num 10], Frame.good [Val.num 2, Val.num 20]]
            ([[Val.num 1, Val.num 100], [Val.num 3, Val.num 300]].map Frame.good) [0]).output
          = ([[Val.num 1, Val.num 100], [Val.num 3, Val.num 300]].filter (fun r =>
              probeHit ((doLocalHashAndJoinWith
                [Frame.good [Val.num 1, Val.num 10], Frame.good [Val.num 2, Val.num 20]]
                ([[Val.num 1, Val.num 100], [Val.num 3, Val.num 300]].map Frame.good) [0]).table) [0] r)).map
            (fun r => (encodeRow (joinedRow ((doLocalHashAndJoinWith
                [Frame.good [Val.num 1, Val.num 10], Frame.good [Val.num 2, Val.num 20]]
                ([[Val.num 1, Val.num 100], [Val.num 3, Val.num 300]].map Frame.good) [0]).table) [0] r)).getD []) :=
  ⟨by decide, by decide,
    C1_hit_emits_in_order [0]
      [Frame.good [Val.num 1, Val.num 10], Frame.good [Val.num 2, Val.num 20]]
      [[Val.num 1, Val.num 100], [Val.num 3, Val.num 300]]
      (by decide) (by decide)⟩

/-- C3: a probe row whose canonical key is absent from the build table
produces no output: inserting such a (well-formed) row anywhere into
the probe stream changes neither the output stream nor the probe-phase
error, i.e. the row is dropped. -/
theorem C3_miss_dropped (idx : List Nat) (L : List Frame) (r : Row)
    (X Y : List Frame) (kb : List Nat)
    (hk : encodeRow (extractKeys r idx) = some kb)
    (hmiss : tableLookup (buildTableOf L idx) kb = none) :
    (doLocalHashAndJoinWith L (X ++ Frame.good r :: Y) idx).output
        = (doLocalHashAndJoinWith L (X ++ Y) idx).output
      ∧ (doLocalHashAndJoinWith L (X ++ Frame.good r :: Y) idx).probeError
        = (doLocalHashAndJoinWith L (X ++ Y) idx).probeError := by
  by_cases he : buildTableOf L idx = []
  · have h1 := doLocal_empty_fields L (X ++ Frame.good r :: Y) idx he
    have h2 := doLocal_empty_fields L (X ++ Y) idx he
    rw [h1.1, h2.1, h1.2.1, h2.2.1]
    exact ⟨rfl, rfl⟩
  · have h1 := doLocal_nonempty_fields L (X ++ Frame.good r :: Y) idx he
    have h2 := doLocal_nonempty_fields L (X ++ Y) idx he
    have hstep : ∀ out, probeHandler idx (buildTableOf L idx) (Frame.good r) out
        = Except.ok out := by
      intro out
      simp only [probeHandler, decodeRowKeysValues, decodeFrame, hk, hmiss]
    have hskip := processMessage_skip (probeHandler idx (buildTableOf L idx))
      (Frame.good r) hstep X Y []
    exact ⟨by rw [h1.1, h2.1]; exact hskip.1,
      by rw [h1.2.1, h2.2.1]; exact hskip.2⟩

theorem C3_miss_dropped_witness :
    encodeRow (extractKeys [Val.num 3] [0]) = some [1, 1, 3]
      ∧ tableLookup (buildTableOf [Frame.good [Val.num 1, Val.num 10]] [0]) [1, 1, 3] = none
      ∧ ((doLocalHashAndJoinWith [Frame.good [Val.num 1, Val.num 10]]
            ([Frame.good [Val.num 1, Val.num 100]] ++ Frame.good [Val.num 3] :: []) [0]).output
          = (doLocalHashAndJoinWith [Frame.good [Val.num 1, Val.num 10]]
              ([Frame.good [Val.num 1, Val.num 100]] ++ []) [0]).output
        ∧ (doLocalHashAndJoinWith [Frame.good [Val.num 1, Val.num 10]]
            ([Frame.good [Val.num 1, Val.num 100]] ++ Frame.good [Val.num 3] :: []) [0]).probeError
          = (doLocalHashAndJoinWith [Frame.good [Val.num 1, Val.num 10]]
              ([Frame.good [Val.num 1, Val.num 100]] ++ []) [0]).probeError) :=
  ⟨by decide, by decide,
    C3_miss_dropped [0] [Frame.good [Val.num 1, Val.num 10]] [Val.num 3]
      [Frame.good [Val.num 1, Val.num 100]] [] [1, 1, 3] (by decide) (by decide)⟩

/-- C4: a decode error on a build frame stops build-stream consumption
immediately (the frames after the malformed one are exactly the ones
left unconsumed), records a build error, and the run proceeds to the
probe phase with exactly the table accumulated before the error — all
probe-side results equal those of a run whose build stream ends just
before the malformed frame; the run entry point still returns normally
(the model is a total function). -/
theorem C4_build_error_stops_build_only (idx : List Nat) (rows : List Row)
    (m : Nat) (rest R : List Frame)
    (hk : ∀ r ∈ rows, (encodeRow (extractKeys r idx)).isSome) :
    (doLocalHashAndJoinWith (rows.map Frame.good ++ Frame.bad m :: rest) R idx).buildRemaining = rest
      ∧ (doLocalHashAndJoinWith (rows.map Frame.good ++ Frame.bad m :: rest) R idx).buildError.isSome = true
      ∧ (doLocalHashAndJoinWith (rows.map Frame.good ++ Frame.bad m :: rest) R idx).table
          = (doLocalHashAndJoinWith (rows.map Frame.good) R idx).table
      ∧ (doLocalHashAndJoinWith (rows.map Frame.good ++ Frame.bad m :: rest) R idx).output
          = (doLocalHashAndJoinWith (rows.map Frame.good) R idx).output
      ∧ (doLocalHashAndJoinWith (rows.map Frame.good ++ Frame.bad m :: rest) R idx).probeError
          = (doLocalHashAndJoinWith (rows.map Frame.good) R idx).probeError
      ∧ (doLocalHashAndJoinWith (rows.map Frame.good ++ Frame.bad m :: rest) R idx).probeRemaining
          = (doLocalHashAndJoinWith (rows.map Frame.good) R idx).probeRemaining := by
  have hb2 := processMessage_build idx rows [] hk
  have hb : processMessage (buildHandler idx) (rows.map Frame.good ++ Frame.bad m :: rest) []
      = (buildTableList idx rows [], some "DecodeError: malformed frame", rest) := by
    rw [processMessage_append_of_ok (buildHandler idx) (rows.map Frame.good)
        (Frame.bad m :: rest) [] (buildTableList idx rows []) hb2,
      processMessage_cons_error (buildHandler idx) (Frame.bad m) rest
        (buildTableList idx rows []) "DecodeError: malformed frame"
        (buildHandler_bad idx m (buildTableList idx rows []))]
  have ht1 : buildTableOf (rows.map Frame.good ++ Frame.bad m :: rest) idx
      = buildTableList idx rows [] := by
    unfold buildTableOf; rw [hb]
  have ht2 : buildTableOf (rows.map Frame.good) idx = buildTableList idx rows [] := by
    unfold buildTableOf; rw [hb2]
  have hprobe : (doLocalHashAndJoinWith (rows.map Frame.good ++ Frame.bad m :: rest) R idx).output
        = (doLocalHashAndJoinWith (rows.map Frame.good) R idx).output
      ∧ (doLocalHashAndJoinWith (rows.map Frame.good ++ Frame.bad m :: rest) R idx).probeError
        = (doLocalHashAndJoinWith (rows.map Frame.good) R idx).probeError
      ∧ (doLocalHashAndJoinWith (rows.map Frame.good ++ Frame.bad m :: rest) R idx).probeRemaining
        = (doLocalHashAndJoinWith (rows.map Frame.good) R idx).probeRemaining := by
    by_cases he : buildTableList idx rows [] = []
    · have hf1 := doLocal_empty_fields _ R idx (ht1.trans he)
      have hf2 := doLocal_empty_fields _ R idx (ht2.trans he)
      exact ⟨hf1.1.trans hf2.1.symm, hf1.2.1.trans hf2.2.1.symm,
        hf1.2.2.trans hf2.2.2.symm⟩
    · have hf1 := doLocal_nonempty_fields _ R idx (by rw [ht1]; exact he)
      have hf2 := doLocal_nonempty_fields _ R idx (by rw [ht2]; exact he)
      rw [hf1.1, hf2.1, hf1.2.1, hf2.2.1, hf1.2.2, hf2.2.2, ht1, ht2]
      exact ⟨rfl, rfl, rfl⟩
  refine ⟨?_, ?_, ?_, hprobe.1, hprobe.2.1, hprobe.2.2⟩
  · rw [doLocal_buildRemaining, hb]
  · rw [doLocal_buildError, hb]
    rfl
  · rw [doLocal_table, doLocal_table, ht1, ht2]

theorem C4_build_error_stops_build_only_witness :
    (∀ r ∈ [[Val.num 1, Val.num 10]], (encodeRow (extractKeys r [0])).isSome)
      ∧ ((doLocalHashAndJoinWith ([[Val.num 1, Val.num 10]].map Frame.good
              ++ Frame.bad 0 :: [Frame.good [Val.num 2, Val.num 20]])
            [Frame.good [Val.num 1, Val.num 9]] [0]).buildRemaining
            = [Frame.good [Val.num 2, Val.num 20]]
        ∧ (doLocalHashAndJoinWith ([[Val.num 1, Val.num 10]].map Frame.good
              ++ Frame.bad 0 :: [Frame.good [Val.num 2, Val.num 20]])
            [Frame.good [Val.num 1, Val.num 9]] [0]).buildError.isSome = true
        ∧ (doLocalHashAndJoinWith ([[Val.num 1, Val.num 10]].map Frame.good
              ++ Frame.bad 0 :: [Frame.good [Val.num 2, Val.num 20]])
            [Frame.good [Val.num 1, Val.num 9]] [0]).table
            = (doLocalHashAndJoinWith ([[Val.num 1, Val.num 10]].map Frame.good)
                [Frame.good [Val.num 1, Val.num 9]] [0]).table
        ∧ (doLocalHashAndJoinWith ([[Val.num 1, Val.num 10]].map Frame.good
              ++ Frame.bad 0 :: [Frame.good [Val.num 2, Val.num 20]])
            [Frame.good [Val.num 1, Val.num 9]] [0]).output
            = (doLocalHashAndJoinWith ([[Val.num 1, Val.num 10]].map Frame.good)
                [Frame.good [Val.num 1, Val.num 9]] [0]).output
        ∧ (doLocalHashAndJoinWith ([[Val.num 1, Val.num 10]].map Frame.good
              ++ Frame.bad 0 :: [Frame.good [Val.num 2, Val.num 20]])
            [Frame.good [Val.num 1, Val.num 9]] [0]).probeError
            = (doLocalHashAndJoinWith ([[Val.num 1, Val.num 10]].map Frame.good)
                [Frame.good [Val.num 1, Val.num 9]] [0]).probeError
        ∧ (doLocalHashAndJoinWith ([[Val.num 1, Val.num 10]].map Frame.good
              ++ Frame.bad 0 :: [Frame.good [Val.num 2, Val.num 20]])
            [Frame.good [Val.num 1, Val.num 9]] [0]).probeRemaining
            = (doLocalHashAndJoinWith ([[Val.num 1, Val.num 10]].map Frame.good)
                [Frame.good [Val.num 1, Val.num 9]] [0]).probeRemaining) :=
  ⟨by decide,
    C4_build_error_stops_build_only [0] [[Val.num 1, Val.num 10]] 0
      [Frame.good [Val.num 2, Val.num 20]] [Frame.good [Val.num 1, Val.num 9]]
      (by decide)⟩

theorem doLocal_diag_iff (L R : List Frame) (idx : List Nat) :
    (doLocalHashAndJoinWith L R idx).diagnostics ≠ [] ↔
      ((doLocalHashAndJoinWith L R idx).buildError.isSome = true
        ∨ (doLocalHashAndJoinWith L R idx).probeError.isSome = true) := by
  unfold doLocalHashAndJoinWith
  cases hi : (processMessage (buildHandler idx) L ([] : Table)).1.isEmpty
  · simp only [hi, Bool.false_eq_true, if_false]
    cases hbe : (processMessage (buildHandler idx) L ([] : Table)).2.1 <;>
      cases hpe : (processMessage
          (probeHandler idx (processMessage (buildHandler idx) L ([] : Table)).1)
          R []).2.1 <;>
        simp [hbe, hpe]
  · simp only [hi, if_true]
    cases hbe : (processMessage (buildHandler idx) L ([] : Table)).2.1 <;>
      simp [hbe]

/-- C6 (counterexample): on a build stream consisting of one malformed
frame, a decode error occurs (a build error is recorded and a
diagnostic line is printed), yet the statistics sink passed to the run
entry point comes back with both per-phase error counters unchanged at
zero — the sink is never updated. -/
theorem C6_counterexample :
    ((LocalHashAndJoinWith.mk [0]).function [Frame.bad 0] [] ⟨0, 0⟩).1.buildError.isSome = true
      ∧ ((LocalHashAndJoinWith.mk [0]).function [Frame.bad 0] [] ⟨0, 0⟩).1.diagnostics ≠ []
      ∧ ((LocalHashAndJoinWith.mk [0]).function [Frame.bad 0] [] ⟨0, 0⟩).2 = ⟨0, 0⟩ := by
  refine ⟨rfl, ?_, rfl⟩
  decide

/-- C6 (amended): every decode/encode error during the build or the
probe phase is reported by printing a diagnostic line to standard
output (diagnostics are nonempty exactly when a phase error occurred),
but the statistics sink passed to the operator's run entry point is
ignored: it is returned unchanged, so no per-phase error count is ever
updated. -/
theorem C6_amended_stdout_not_stats (b : LocalHashAndJoinWith)
    (L R : List Frame) (s : Stats) :
    (b.function L R s).2 = s
      ∧ ((b.function L R s).1.diagnostics ≠ [] ↔
          ((b.function L R s).1.buildError.isSome = true
            ∨ (b.function L R s).1.probeError.isSome = true)) :=
  ⟨rfl, doLocal_diag_iff L R b.indexes⟩

/-- C8 (counterexample): with the table mapping key `1` to an
unencodable value and key `2` to an ordinary one, the first probe row
hits key `1` and its output row fails to re-encode (an `EncodingError`
while writing an output row), yet the probe phase does not stop: no
probe error is recorded, the whole probe stream is consumed, and the
second probe row is still emitted (output length 1). -/
theorem C8_counterexample :
    tableLookup ((doLocalHashAndJoinWith
        [Frame.good [Val.num 1, Val.chan 0], Frame.good [Val.num 2, Val.num 5]]
        [Frame.good [Val.num 1, Val.num 9], Frame.good [Val.num 2, Val.num 9]]
        [0]).table) [1, 1, 1] = some [Val.chan 0]
      ∧ encodeRow (joinedRow ((doLocalHashAndJoinWith
          [Frame.good [Val.num 1, Val.chan 0], Frame.good [Val.num 2, Val.num 5]]
          [Frame.good [Val.num 1, Val.num 9], Frame.good [Val.num 2, Val.num 9]]
          [0]).table) [0] [Val.num 1, Val.num 9]) = none
      ∧ (doLocalHashAndJoinWith
          [Frame.good [Val.num 1, Val.chan 0], Frame.good [Val.num 2, Val.num 5]]
          [Frame.good [Val.num 1, Val.num 9], Frame.good [Val.num 2, Val.num 9]]
          [0]).probeError = none
      ∧ (doLocalHashAndJoinWith
          [Frame.good [Val.num 1, Val.chan 0], Frame.good [Val.num 2, Val.num 5]]
          [Frame.good [Val.num 1, Val.num 9], Frame.good [Val.num 2, Val.num 9]]
          [0]).probeRemaining = []
      ∧ (doLocalHashAndJoinWith
          [Frame.good [Val.num 1, Val.chan 0], Frame.good [Val.num 2, Val.num 5]]
          [Frame.good [Val.num 1, Val.num 9], Frame.good [Val.num 2, Val.num 9]]
          [0]).output.length = 1 := by
  decide

/-- C8 (amended): an `EncodingError` re-encoding a probe row's KEY
terminates the probe phase early — the frames after the failing one are
left unconsumed and a probe error is recorded — whereas an
`EncodingError` while encoding an OUTPUT row being written is ignored:
the per-frame handler succeeds with the output unchanged (the row is
silently dropped) and the probe phase continues. -/
theorem C8_amended_key_stops_write_ignored (idx : List Nat) (L : List Frame)
    (rows : List Row) (r : Row) (rest : List Frame)
    (out : List (List Nat)) (r2 : Row) (kb2 : List Nat) (mv : Row)
    (hk : ∀ x ∈ rows, (encodeRow (extractKeys x idx)).isSome)
    (hr : encodeRow (extractKeys r idx) = none)
    (ht : buildTableOf L idx ≠ [])
    (h2k : encodeRow (extractKeys r2 idx) = some kb2)
    (h2l : tableLookup (buildTableOf L idx) kb2 = some mv)
    (h2e : encodeRow (extractKeys r2 idx ++ extractVals r2 idx ++ mv) = none) :
    (doLocalHashAndJoinWith L (rows.map Frame.good ++ Frame.good r :: rest) idx).probeRemaining = rest
      ∧ (doLocalHashAndJoinWith L (rows.map Frame.good ++ Frame.good r :: rest) idx).probeError.isSome = true
      ∧ probeHandler idx (buildTableOf L idx) (Frame.good r2) out = Except.ok out := by
  have hf := doLocal_nonempty_fields L (rows.map Frame.good ++ Frame.good r :: rest) idx ht
  have hre : probeHandler idx (buildTableOf L idx) (Frame.good r)
      ([] ++ rows.filterMap (probeEmit (buildTableOf L idx) idx))
      = Except.error "EncodingError: failed to encode row" := by
    simp only [probeHandler, decodeRowKeysValues, decodeFrame, hr]
  have hp : processMessage (probeHandler idx (buildTableOf L idx))
      (rows.map Frame.good ++ Frame.good r :: rest) []
      = ([] ++ rows.filterMap (probeEmit (buildTableOf L idx) idx),
          some "EncodingError: failed to encode row", rest) := by
    rw [processMessage_append_of_ok (probeHandler idx (buildTableOf L idx))
        (rows.map Frame.good) (Frame.good r :: rest) []
        ([] ++ rows.filterMap (probeEmit (buildTableOf L idx) idx))
        (processMessage_probe idx (buildTableOf L idx) rows [] hk),
      processMessage_cons_error _ _ _ _ _ hre]
  refine ⟨?_, ?_, ?_⟩
  · rw [hf.2.2, hp]
  · rw [hf.2.1, hp]
    rfl
  · simp only [probeHandler, decodeRowKeysValues, decodeFrame, h2k, h2l,
      writeRow, h2e]

theorem C8_amended_key_stops_write_ignored_witness :
    (∀ x ∈ ([] : List Row), (encodeRow (extractKeys x [0])).isSome)
      ∧ encodeRow (extractKeys [Val.chan 1] [0]) = none
      ∧ buildTableOf [Frame.good [Val.num 1, Val.chan 0], Frame.good [Val.num 2, Val.num 5]] [0] ≠ []
      ∧ encodeRow (extractKeys [Val.num 1, Val.num 9] [0]) = some [1, 1, 1]
      ∧ tableLookup (buildTableOf [Frame.good [Val.num 1, Val.chan 0], Frame.good [Val.num 2, Val.num 5]] [0]) [1, 1, 1] = some [Val.chan 0]
      ∧ encodeRow (extractKeys [Val.num 1, Val.num 9] [0] ++ extractVals [Val.num 1, Val.num 9] [0] ++ [Val.chan 0]) = none
      ∧ ((doLocalHashAndJoinWith [Frame.good [Val.num 1, Val.chan 0], Frame.good [Val.num 2, Val.num 5]]
            (([] : List Row).map Frame.good ++ Frame.good [Val.chan 1] :: [Frame.bad 9]) [0]).probeRemaining = [Frame.bad 9]
        ∧ (doLocalHashAndJoinWith [Frame.good [Val.num 1, Val.chan 0], Frame.good [Val.num 2, Val.num 5]]
            (([] : List Row).map Frame.good ++ Frame.good [Val.chan 1] :: [Frame.bad 9]) [0]).probeError.isSome = true
        ∧ probeHandler [0] (buildTableOf [Frame.good [Val.num 1, Val.chan 0], Frame.good [Val.num 2, Val.num 5]] [0])
            (Frame.good [Val.num 1, Val.num 9]) [] = Except.ok []) :=
  ⟨by decide, by decide, by decide, by decide, by decide, by decide,
    C8_amended_key_stops_write_ignored [0]
      [Frame.good [Val.num 1, Val.chan 0], Frame.good [Val.num 2, Val.num 5]]
      [] [Val.chan 1] [Frame.bad 9] [] [Val.num 1, Val.num 9] [1, 1, 1]
      [Val.chan 0] (by decide) (by decide) (by decide) (by decide) (by decide)
      (by decide)⟩

theorem machineInv_init (idx : List Nat) (L R : List Frame) :
    machineInv idx L R (initState idx L R) :=
  ⟨rfl, fun _ => ⟨rfl, rfl, rfl⟩, fun hc => absurd rfl hc⟩

theorem machineInv_step (idx : List Nat) (L R : List Frame) (s : MState)
    (h : machineInv idx L R s) : machineInv idx L R (step s) := by
  obtain ⟨ph, i, brem, prem, tbl, out⟩ := s
  obtain ⟨hidx, hbuild, hafter⟩ := h
  cases ph with
  | building =>
    obtain ⟨hR, hout, hpm⟩ := hbuild rfl
    cases brem with
    | nil =>
      refine ⟨hidx, fun hc => Phase.noConfusion hc, fun _ => ⟨?_, ?_⟩⟩
      · show tbl = buildTableOf L idx
        unfold buildTableOf
        rw [← hpm]
        rfl
      · show ([] : List Frame) = (processMessage (buildHandler idx) L []).2.2
        rw [← hpm]
        rfl
    | cons f rest =>
      cases hh : buildHandler i f tbl with
      | error e =>
        have hh' : buildHandler idx f tbl = Except.error e := by
          rw [← hidx]; exact hh
        have hs : step ⟨Phase.building, i, f :: rest, prem, tbl, out⟩
            = ⟨Phase.probing, i, rest, prem, tbl, out⟩ := by
          unfold step
          dsimp only
          rw [hh]
        rw [hs]
        have hpm2 : (tbl, some e, rest)
            = processMessage (buildHandler idx) L [] := by
          rw [← processMessage_cons_error (buildHandler idx) f rest tbl e hh']
          exact hpm
        refine ⟨hidx, fun hc => Phase.noConfusion hc, fun _ => ⟨?_, ?_⟩⟩
        · show tbl = buildTableOf L idx
          unfold buildTableOf
          rw [← hpm2]
        · show rest = (processMessage (buildHandler idx) L []).2.2
          rw [← hpm2]
      | ok t' =>
        have hh' : buildHandler idx f tbl = Except.ok t' := by
          rw [← hidx]; exact hh
        have hs : step ⟨Phase.building, i, f :: rest, prem, tbl, out⟩
            = ⟨Phase.building, i, rest, prem, t', out⟩ := by
          unfold step
          dsimp only
          rw [hh]
        rw [hs]
        refine ⟨hidx, fun _ => ⟨hR, hout, ?_⟩, fun hc => absurd rfl hc⟩
        show processMessage (buildHandler idx) rest t' = _
        rw [← processMessage_cons_ok (buildHandler idx) f rest tbl t' hh']
        exact hpm
  | probing =>
    obtain ⟨htab, hrem⟩ := hafter (fun hc => Phase.noConfusion hc)
    cases tbl with
    | nil =>
      exact ⟨hidx, fun hc => Phase.noConfusion hc, fun _ => ⟨htab, hrem⟩⟩
    | cons p ts =>
      cases prem with
      | nil =>
        exact ⟨hidx, fun hc => Phase.noConfusion hc, fun _ => ⟨htab, hrem⟩⟩
      | cons f rest =>
        cases hh : probeHandler i (p :: ts) f out with
        | error e =>
          have hs : step ⟨Phase.probing, i, brem, f :: rest, p :: ts, out⟩
              = ⟨Phase.done, i, brem, rest, p :: ts, out⟩ := by
            unfold step
            dsimp only
            rw [hh]
            rfl
          rw [hs]
          exact ⟨hidx, fun hc => Phase.noConfusion hc, fun _ => ⟨htab, hrem⟩⟩
        | ok out' =>
          have hs : step ⟨Phase.probing, i, brem, f :: rest, p :: ts, out⟩
              = ⟨Phase.probing, i, brem, rest, p :: ts, out'⟩ := by
            unfold step
            dsimp only
            rw [hh]
            rfl
          rw [hs]
          exact ⟨hidx, fun hc => Phase.noConfusion hc, fun _ => ⟨htab, hrem⟩⟩
  | done =>
    exact ⟨hidx, hbuild, hafter⟩

theorem machineInv_reachable (idx : List Nat) (L R : List Frame) :
    ∀ n : Nat, machineInv idx L R (step^[n] (initState idx L R)) := by
  intro n
  induction n with
  | zero => exact machineInv_init idx L R
  | succ n ih =>
    rw [Function.iterate_succ_apply']
    exact machineInv_step idx L R _ ih

theorem machine_build_phase (idx : List Nat) (R : List Frame) :
    ∀ (L : List Frame) (t : Table) (out : List (List Nat)),
      ∃ n : Nat, step^[n] ⟨Phase.building, idx, L, R, t, out⟩
        = ⟨Phase.probing, idx, (processMessage (buildHandler idx) L t).2.2, R,
            (processMessage (buildHandler idx) L t).1, out⟩ := by
  intro L
  induction L with
  | nil =>
    intro t out
    exact ⟨1, by rw [Function.iterate_one]; rfl⟩
  | cons f rest ih =>
    intro t out
    cases hh : buildHandler idx f t with
    | error e =>
      refine ⟨1, ?_⟩
      rw [Function.iterate_one,
        processMessage_cons_error (buildHandler idx) f rest t e hh]
      unfold step
      dsimp only
      rw [hh]
    | ok t' =>
      obtain ⟨n, hn⟩ := ih t' out
      refine ⟨n + 1, ?_⟩
      rw [Function.iterate_succ_apply]
      have hs : step ⟨Phase.building, idx, f :: rest, R, t, out⟩
          = ⟨Phase.building, idx, rest, R, t', out⟩ := by
        unfold step
        dsimp only
        rw [hh]
      rw [hs, hn, processMessage_cons_ok (buildHandler idx) f rest t t' hh]

theorem machine_probe_phase (idx : List Nat) (p0 : List Nat × Row)
    (ts0 : Table) :
    ∀ (R' brem : List Frame) (out : List (List Nat)),
      ∃ n : Nat, step^[n] ⟨Phase.probing, idx, brem, R', p0 :: ts0, out⟩
        = ⟨Phase.done, idx, brem,
            (processMessage (probeHandler idx (p0 :: ts0)) R' out).2.2,
            p0 :: ts0,
            (processMessage (probeHandler idx (p0 :: ts0)) R' out).1⟩ := by
  intro R'
  induction R' with
  | nil =>
    intro brem out
    exact ⟨1, by rw [Function.iterate_one]; rfl⟩
  | cons f rest ih =>
    intro brem out
    cases hh : probeHandler idx (p0 :: ts0) f out with
    | error e =>
      refine ⟨1, ?_⟩
      rw [Function.iterate_one,
        processMessage_cons_error (probeHandler idx (p0 :: ts0)) f rest out e hh]
      unfold step
      dsimp only
      rw [hh]
      rfl
    | ok out' =>
      obtain ⟨n, hn⟩ := ih brem out'
      refine ⟨n + 1, ?_⟩
      rw [Function.iterate_succ_apply]
      have hs : step ⟨Phase.probing, idx, brem, f :: rest, p0 :: ts0, out⟩
          = ⟨Phase.probing, idx, brem, rest, p0 :: ts0, out'⟩ := by
        unfold step
        dsimp only
        rw [hh]
        rfl
      rw [hs, hn,
        processMessage_cons_ok (probeHandler idx (p0 :: ts0)) f rest out out' hh]

theorem machine_probe_empty_step (idx : List Nat) (brem R : List Frame)
    (out : List (List Nat)) :
    step ⟨Phase.probing, idx, brem, R, [], out⟩
      = ⟨Phase.done, idx, brem, [], [], out⟩ := rfl

/-- The small-step machine refines the operator: from the initial state
it reaches, in finitely many steps, the terminal state carrying exactly
the run's leftover build stream, leftover probe stream, table, and
output. -/
theorem machine_refines (idx : List Nat) (L R : List Frame) :
    ∃ n : Nat, step^[n] (initState idx L R)
      = ⟨Phase.done, idx, (doLocalHashAndJoinWith L R idx).buildRemaining,
          (doLocalHashAndJoinWith L R idx).probeRemaining,
          (doLocalHashAndJoinWith L R idx).table,
          (doLocalHashAndJoinWith L R idx).output⟩ := by
  obtain ⟨n1, hn1⟩ := machine_build_phase idx R L [] []
  have hinit : initState idx L R = ⟨Phase.building, idx, L, R, [], []⟩ := rfl
  cases htab : (processMessage (buildHandler idx) L ([] : Table)).1 with
  | nil =>
    have he : buildTableOf L idx = [] := htab
    refine ⟨1 + n1, ?_⟩
    rw [Function.iterate_add_apply, hinit, hn1, htab, Function.iterate_one,
      machine_probe_empty_step idx (processMessage (buildHandler idx) L []).2.2 R [],
      doLocal_buildRemaining, (doLocal_empty_fields L R idx he).1,
      (doLocal_empty_fields L R idx he).2.2, doLocal_table, he]
  | cons p ts =>
    have he : buildTableOf L idx ≠ [] := by
      unfold buildTableOf
      rw [htab]
      exact List.cons_ne_nil p ts
    obtain ⟨n2, hn2⟩ :=
      machine_probe_phase idx p ts R (processMessage (buildHandler idx) L []).2.2 []
    refine ⟨n2 + n1, ?_⟩
    have hf := doLocal_nonempty_fields L R idx he
    unfold buildTableOf at hf
    rw [htab] at hf
    rw [Function.iterate_add_apply, hinit, hn1, htab, hn2,
      doLocal_buildRemaining, doLocal_table, hf.1, hf.2.2]
    unfold buildTableOf
    rw [htab]

/-- C7: hard phase barrier.  In any reachable state of the small-step
execution: while the phase is still Building, not one probe frame has
been consumed and nothing has been emitted; and whenever the phase is
Probing, the table already equals the run's final table and the build
stream has been consumed exactly to completion (to end-of-stream or to
the erroneous frame) — so the table is fully populated before any probe
read, with no interleaving of the phases. -/
theorem C7_phase_barrier (idx : List Nat) (L R : List Frame) (n m : Nat)
    (h : (step^[n] (initState idx L R)).phase = Phase.building)
    (h2 : (step^[m] (initState idx L R)).phase = Phase.probing) :
    (step^[n] (initState idx L R)).probeRem = R
      ∧ (step^[n] (initState idx L R)).output = []
      ∧ (step^[m] (initState idx L R)).table
          = (doLocalHashAndJoinWith L R idx).table
      ∧ (step^[m] (initState idx L R)).buildRem
          = (doLocalHashAndJoinWith L R idx).buildRemaining := by
  have h1 := (machineInv_reachable idx L R n).2.1 h
  have h3 := (machineInv_reachable idx L R m).2.2 (by rw [h2]; decide)
  exact ⟨h1.1, h1.2.1, by rw [doLocal_table]; exact h3.1,
    by rw [doLocal_buildRemaining]; exact h3.2⟩

theorem C7_phase_barrier_witness :
    (step^[0] (initState [0] [Frame.good [Val.num 1, Val.num 2]] [Frame.bad 0])).phase = Phase.building
      ∧ (step^[2] (initState [0] [Frame.good [Val.num 1, Val.num 2]] [Frame.bad 0])).phase = Phase.probing
      ∧ ((step^[0] (initState [0] [Frame.good [Val.num 1, Val.num 2]] [Frame.bad 0])).probeRem = [Frame.bad 0]
        ∧ (step^[0] (initState [0] [Frame.good [Val.num 1, Val.num 2]] [Frame.bad 0])).output = []
        ∧ (step^[2] (initState [0] [Frame.good [Val.num 1, Val.num 2]] [Frame.bad 0])).table
            = (doLocalHashAndJoinWith [Frame.good [Val.num 1, Val.num 2]] [Frame.bad 0] [0]).table
        ∧ (step^[2] (initState [0] [Frame.good [Val.num 1, Val.num 2]] [Frame.bad 0])).buildRem
            = (doLocalHashAndJoinWith [Frame.good [Val.num 1, Val.num 2]] [Frame.bad 0] [0]).buildRemaining) :=
  ⟨by decide, by decide,
    C7_phase_barrier [0] [Frame.good [Val.num 1, Val.num 2]] [Frame.bad 0] 0 2
      (by decide) (by decide)⟩

end Gleam
